import Mathlib

/-!
# Verification of the localfirst/auth provider for automerge-repo

A shallow embedding of `LocalFirstAuthProvider.ts` (package
`automerge-repo-auth-localfirst`) and of the message classifier in
`packages/automerge-repo/src/network/messages.ts`, together with proofs
about the buffering, routing, persistence and event-emission behaviour of
the provider.

JavaScript plain objects used as string-keyed records are modelled as
association lists in insertion order (`Rec`); `k in obj` is key presence,
`obj[k]` is lookup yielding `Option`, assignment updates in place or
appends, and `delete obj[k]` removes the key. The provider is
event-callback driven and single-threaded (cooperative scheduling), so
each handler is a function from provider state to provider state plus a
list of emitted events; `await` points inside a handler are modelled by
exposing the intermediate states of the handler where they matter.
-/

namespace LfAuth

/-- JS record: association list of string keys in insertion order. -/
abbrev Rec (β : Type) := List (String × β)

/-- `obj[k]`: first binding of key `k`, if any. -/
def recLookup {β : Type} (k : String) : Rec β → Option β
  | [] => none
  | (k2, v) :: rest => if k2 = k then some v else recLookup k rest

/-- `k in obj`: key presence. -/
def recHas {β : Type} (k : String) (r : Rec β) : Bool :=
  (recLookup k r).isSome

/-- `obj[k] = v`: update in place if the key exists, else append at the end
(JS property insertion order). -/
def recSet {β : Type} (k : String) (v : β) : Rec β → Rec β
  | [] => [(k, v)]
  | (k2, v2) :: rest => if k2 = k then (k2, v) :: rest else (k2, v2) :: recSet k v rest

/-- `delete obj[k]`: remove the first binding of `k`. -/
def recDelete {β : Type} (k : String) : Rec β → Rec β
  | [] => []
  | (k2, v2) :: rest => if k2 = k then rest else (k2, v2) :: recDelete k rest

/-- `Object.keys(obj)` in insertion order. -/
def recKeys {β : Type} (r : Rec β) : List String :=
  r.map Prod.fst

end LfAuth

namespace Messages

/-!
## `packages/automerge-repo/src/network/messages.ts`

Runtime JavaScript values, `typeof`, property access, and the
`isValidRepoMessage` type guard translated from the source.
-/

/-- A runtime JavaScript value (the fragments relevant to message
classification: primitives and plain objects). -/
inductive JSVal : Type
  | str (s : String)
  | num (n : Int)
  | jsBool (b : Bool)
  | jsUndefined
  | obj (fields : List (String × JSVal))

/-- JavaScript `typeof`. -/
def jsTypeof : JSVal → String
  | .str _ => "string"
  | .num _ => "number"
  | .jsBool _ => "boolean"
  | .jsUndefined => "undefined"
  | .obj _ => "object"

/-- Property access `v.k`: field lookup on objects (absent fields read as
`undefined`); reading a property of another defined value also yields
`undefined`. -/
def getProp (v : JSVal) (k : String) : JSVal :=
  match v with
  | .obj fields => (LfAuth.recLookup k fields).getD .jsUndefined
  | _ => .jsUndefined

/-- Strict equality `v === lit` between a runtime value and a string
literal. -/
def strictEqStr (v : JSVal) (lit : String) : Bool :=
  match v with
  | .str s => s == lit
  | _ => false

/-- `isSyncMessage` (messages.ts line 142). -/
def isSyncMessage (msg : JSVal) : Bool :=
  strictEqStr (getProp msg "type") "sync"

/-- `isEphemeralMessage` (messages.ts line 145). -/
def isEphemeralMessage (msg : JSVal) : Bool :=
  strictEqStr (getProp msg "type") "ephemeral"

/-- `isRequestMessage` (messages.ts line 139). -/
def isRequestMessage (msg : JSVal) : Bool :=
  strictEqStr (getProp msg "type") "request"

/-- `isDocumentUnavailableMessage` (messages.ts line 136). -/
def isDocumentUnavailableMessage (msg : JSVal) : Bool :=
  strictEqStr (getProp msg "type") "doc-unavailable"

/-- `isRemoteSubscriptionControlMessage` (messages.ts line 149). -/
def isRemoteSubscriptionControlMessage (msg : JSVal) : Bool :=
  strictEqStr (getProp msg "type") "remote-subscription-change"

/-- `isRemoteHeadsChanged` (messages.ts line 152). -/
def isRemoteHeadsChanged (msg : JSVal) : Bool :=
  strictEqStr (getProp msg "type") "remote-heads-changed"

/-- `isValidRepoMessage` (messages.ts lines 124-133). -/
def isValidRepoMessage (message : JSVal) : Bool :=
  jsTypeof message == "object" &&
  jsTypeof (getProp message "type") == "string" &&
  jsTypeof (getProp message "senderId") == "string" &&
  (isSyncMessage message ||
    isEphemeralMessage message ||
    isRequestMessage message ||
    isDocumentUnavailableMessage message ||
    isRemoteSubscriptionControlMessage message ||
    isRemoteHeadsChanged message)

end Messages

namespace Provider

/-!
## `packages/automerge-repo-auth-localfirst/src/LocalFirstAuthProvider.ts`

The provider state, its private helpers, and its event handlers. The
external crypto library (`@localfirst/auth`) is modelled symbolically per
its interface: `symmetric.encrypt` seals a value under a string key,
`team.save()` yields an opaque sealed payload, and an `Auth.Connection`
is a record holding its (eventual) session key, its lifecycle status and
the ordered log of payloads handed to `deliver`.
-/

open LfAuth

abbrev ShareId := String
abbrev PeerId := String

/-- Symbolic plaintext/ciphertext values handled by this layer.
`sealedBox p k` is the ciphertext obtained by symmetrically encrypting
`p` under the key `k`; the ciphertext reveals neither `p` nor `k`. -/
inductive Value : Type
  | bytes (bs : List Nat)
  | str (s : String)
  | vmap (entries : List (String × Value))
  | sealedBox (plaintext : Value) (key : String)

/-- `Auth.symmetric.encrypt(plaintext, key)`. -/
def encrypt (plaintext : Value) (key : String) : Value :=
  .sealedBox plaintext key

/-- Exceptions that can be thrown during provider processing. -/
inductive JSError : Type
  | typeErr
  | connectionNotFound
  | decryptionFailed
  | noShareForPeer (peerId : PeerId)
  deriving DecidableEq, Repr

/-- `Auth.symmetric.decrypt(cipher, key)`: succeeds exactly on a sealed
box sealed under the same key, otherwise throws. -/
def decrypt (cipher : Value) (key : String) : Except JSError Value :=
  match cipher with
  | .sealedBox plaintext k => if k = key then .ok plaintext else .error .decryptionFailed
  | _ => .error .decryptionFailed

/-- The device keyset from configuration (`Auth.DeviceWithSecrets.keys`);
only the secret key is relevant to this layer. -/
structure KeysetWithSecrets : Type where
  secretKey : String

/-- `Auth.DeviceWithSecrets`: always supplied at construction. -/
structure DeviceWithSecrets : Type where
  userId : String
  keys : KeysetWithSecrets

/-- An `Auth.Team` handle, per the consumed library interface:
`save()` returns the team graph sealed by the library under its own key,
`teamKeyring()` returns the team keyring. -/
structure Team : Type where
  id : ShareId
  graph : Value
  keyring : Value
  graphKey : String

/-- `team.save()`. -/
def Team.save (t : Team) : Value :=
  .sealedBox t.graph t.graphKey

/-- `team.teamKeyring()`. -/
def Team.teamKeyring (t : Team) : Value :=
  t.keyring

/-- A `Share` (types.ts): a team we belong to plus its document set. -/
structure Share : Type where
  shareId : ShareId
  team : Team
  documentIds : List String

/-- A pending `Invitation` (types.ts): identified by its share id. -/
structure Invitation : Type where
  shareId : ShareId
  invitationSeed : String

/-- Lifecycle status of an `Auth.Connection`, per the library contract:
`connected` is entered from `handshaking` exactly when the connection
emits its `connected` event (at which point `sessionKey` is populated),
and `closed` is terminal. -/
inductive ConnStatus : Type
  | handshaking
  | connected
  | closed
  deriving DecidableEq, Repr

/-- An `Auth.Connection` as seen by the provider: its session key (empty
until negotiated), its status, and the ordered log of serialized
connection messages passed to `deliver`. -/
structure Conn : Type where
  sessionKey : String
  status : ConnStatus
  delivered : List String
  deriving DecidableEq, Repr

/-- `connection.deliver(message)`. -/
def Conn.deliver (c : Conn) (message : String) : Conn :=
  { c with delivered := c.delivered ++ [message] }

/-- A freshly constructed `new Auth.Connection(...)` after `start()`:
still handshaking, no session key, nothing delivered. -/
def newConnection : Conn :=
  { sessionKey := "", status := .handshaking, delivered := [] }

/-- The persisted blob: `cbor.encode(...)` of the serialized shares. -/
inductive Blob : Type
  | cbor (v : Value)

/-- The provider's private state (one wrapped base adapter):
`#shares`, `#invitations`, `#connections`, `#messageStore`, `#peers`,
`#device`, `#user`, plus the current content of the storage adapter under
this layer's single key `["AuthProvider", "shares"]`. -/
structure ProviderState : Type where
  device : DeviceWithSecrets
  user : Option String
  shares : Rec Share
  invitations : Rec Invitation
  connections : Rec (Rec Conn)
  messageStore : Rec (Rec (List String))
  peers : List PeerId
  storedShares : Option Blob

/-- A fresh provider constructed over an empty storage adapter
(`#loadState` finds nothing). -/
def initialProvider (device : DeviceWithSecrets) : ProviderState :=
  { device := device, user := none, shares := [], invitations := [],
    connections := [], messageStore := [], peers := [], storedShares := none }

/-- Wire frames seen by the wrapped adapter: `auth` frames (handshake
transport), `encrypted` frames (sealed repo messages), and everything
else, passed through. -/
inductive NetMessage : Type
  | auth (senderId targetId : PeerId) (shareId : ShareId)
      (serializedConnectionMessage : String)
  | encryptedMsg (senderId targetId : PeerId) (shareId : ShareId)
      (encryptedMessage : Value)
  | passThrough (senderId targetId : PeerId) (body : Value)

/-- `message.senderId`. -/
def NetMessage.senderId : NetMessage → PeerId
  | .auth s _ _ _ => s
  | .encryptedMsg s _ _ _ => s
  | .passThrough s _ _ => s

/-- What `#transform.inbound` returns: either the original message or the
decrypted inner repo message. -/
inductive InboundPayload : Type
  | original (m : NetMessage)
  | decrypted (v : Value)

/-- Events emitted by the provider while handling one input: events on
the authenticated adapter, outward provider events, and storage writes. -/
inductive OutputEvent : Type
  | adapterPeerCandidate (peerId : PeerId)
  | adapterMessage (payload : InboundPayload)
  | adapterError (peerId : PeerId) (error : JSError)
  | providerConnected (shareId : ShareId) (peerId : PeerId)
  | providerJoined (shareId : ShareId) (peerId : PeerId)
  | providerDisconnected (shareId : ShareId) (peerId : PeerId)
  | storageSave (key : List String) (value : Blob)

/-- `#allShareIds` (lines 134-139). -/
def allShareIds (st : ProviderState) : List ShareId :=
  recKeys st.shares ++ recKeys st.invitations

/-- `this.#messageStore[shareId]?.[peerId] || []`. -/
def storedQueue (st : ProviderState) (shareId : ShareId) (peerId : PeerId) : List String :=
  ((recLookup shareId st.messageStore).bind (fun r => recLookup peerId r)).getD []

/-- `#storeMessage` (lines 205-211): append at the end of the per-pair
queue. -/
def storeMessage (st : ProviderState) (shareId : ShareId) (peerId : PeerId)
    (message : String) : ProviderState :=
  let messages := storedQueue st shareId peerId
  let inner := recSet peerId (messages ++ [message]) ((recLookup shareId st.messageStore).getD [])
  { st with messageStore := recSet shareId inner st.messageStore }

/-- `#popStoredMessage` (lines 213-218): `shift()` the oldest queued
message, mutating the stored queue. -/
def popStoredMessage (st : ProviderState) (shareId : ShareId) (peerId : PeerId) :
    Option String × ProviderState :=
  match storedQueue st shareId peerId with
  | [] => (none, st)
  | m :: rest =>
      let inner := recSet peerId rest ((recLookup shareId st.messageStore).getD [])
      (some m, { st with messageStore := recSet shareId inner st.messageStore })

/-- `#getConnection` (lines 343-347): throws when absent. -/
def getConnection (st : ProviderState) (shareId : ShareId) (peerId : PeerId) :
    Except JSError Conn :=
  match (recLookup shareId st.connections).bind (fun r => recLookup peerId r) with
  | some connection => .ok connection
  | none => .error .connectionNotFound

/-- The drain loop of `#createConnection` (lines 309-313): pop stored
messages one at a time and deliver each to the connection, until the
queue is exhausted. -/
def drainLoop (st : ProviderState) (shareId : ShareId) (peerId : PeerId) (conn : Conn) :
    ProviderState × Conn :=
  match h : popStoredMessage st shareId peerId with
  | (none, st2) => (st2, conn)
  | (some m, st2) => drainLoop st2 shareId peerId (conn.deliver m)
termination_by (storedQueue st shareId peerId).length
decreasing_by
  have hself : ∀ (β : Type) (k : String) (v : β) (r : LfAuth.Rec β),
      recLookup k (recSet k v r) = some v := by
    intro β k v r
    induction r with
    | nil => simp [recSet, recLookup]
    | cons hd tl ih =>
      obtain ⟨k2, v2⟩ := hd
      by_cases hk : k2 = k
      · rw [recSet, if_pos hk, recLookup, if_pos hk]
      · rw [recSet, if_neg hk, recLookup, if_neg hk]
        exact ih
  rcases hq : storedQueue st shareId peerId with _ | ⟨a, rest⟩
  · simp only [popStoredMessage, hq] at h
    exact absurd (congrArg Prod.fst h) (by simp)
  · simp only [popStoredMessage, hq, Prod.mk.injEq, Option.some.injEq] at h
    have hq2 : storedQueue st2 shareId peerId = rest := by
      rw [← h.2, storedQueue]
      show ((recLookup shareId (recSet shareId _ st.messageStore)).bind
        (fun r => recLookup peerId r)).getD [] = rest
      rw [hself]
      show (recLookup peerId (recSet peerId rest _)).getD [] = rest
      rw [hself]
      rfl
    rw [hq2]
    exact Nat.lt_succ_self rest.length

/-- `#createConnection` (lines 225-318), for one (shareId, peerId):
construct a fresh external connection, start it, drain the pending
buffer into it in arrival order, then track it under
`#connections[shareId][peerId]`. -/
def createConnection (st : ProviderState) (shareId : ShareId) (peerId : PeerId) :
    ProviderState :=
  let res := drainLoop st shareId peerId newConnection
  let connections := (recLookup shareId res.1.connections).getD []
  { res.1 with connections := recSet shareId (recSet peerId res.2 connections) res.1.connections }

/-- `#createConnectionsForShare` (lines 425-438): for every known peer
without a connection on this share, create one. -/
def createConnectionsForShare (st : ProviderState) (shareId : ShareId) : ProviderState :=
  st.peers.foldl
    (fun acc peerId =>
      match (recLookup shareId acc.connections).bind (fun r => recLookup peerId r) with
      | some _ => acc
      | none => createConnection acc shareId peerId)
    st

/-- `addTeam` (lines 141-145): record the share, then open sessions for
all known peers. -/
def addTeamState (st : ProviderState) (team : Team) : ProviderState :=
  let shareId := team.id
  let share : Share := { shareId := shareId, team := team, documentIds := [] }
  let st2 := { st with shares := recSet shareId share st.shares }
  createConnectionsForShare st2 shareId

/-- `addInvitation` (lines 147-151): record the invitation, then open
sessions for all known peers. -/
def addInvitationState (st : ProviderState) (invitation : Invitation) : ProviderState :=
  let shareId := invitation.shareId
  let st2 := { st with invitations := recSet shareId invitation st.invitations }
  createConnectionsForShare st2 shareId

/-- `#addPeer` (lines 320-326). -/
def addPeer (st : ProviderState) (peerId : PeerId) : ProviderState :=
  if peerId ∈ st.peers then st else { st with peers := st.peers ++ [peerId] }

/-- The serialized form of one share (lines 359-365). -/
def serializedShareValue (device : DeviceWithSecrets) (share : Share) : Value :=
  .vmap [("encryptedTeam", Team.save share.team),
         ("encryptedTeamKeys", encrypt (Team.teamKeyring share.team) device.keys.secretKey)]

/-- The `for (const shareId in this.#shares)` accumulation of
`#saveState` (lines 356-366). -/
def saveStateLoop (device : DeviceWithSecrets) : Rec Share → Rec Value → Rec Value
  | [], shares => shares
  | (shareId, share) :: rest, shares =>
      saveStateLoop device rest (recSet shareId (serializedShareValue device share) shares)

/-- The serialized state object built by `#saveState` before encoding. -/
def saveStateValue (st : ProviderState) : Value :=
  .vmap (saveStateLoop st.device st.shares [])

/-- `#saveState` (lines 355-369): encode the serialized shares with cbor
and write them under `["AuthProvider", "shares"]` via `#save`
(lines 167-168). -/
def saveState (st : ProviderState) : ProviderState × List OutputEvent :=
  let serializedState := Blob.cbor (saveStateValue st)
  ({ st with storedShares := some serializedState },
   [.storageSave ["AuthProvider", "shares"] serializedState])

/-- `#removeConnection` (lines 349-352). -/
def removeConnection (st : ProviderState) (shareId : ShareId) (peerId : PeerId) :
    ProviderState :=
  match recLookup shareId st.connections with
  | none => st
  | some conns =>
      if recHas peerId conns then
        { st with connections := recSet shareId (recDelete peerId conns) st.connections }
      else st

/-- `#disconnect` (lines 328-341): drop the session and emit
`disconnected` outward. -/
def disconnectStep (st : ProviderState) (shareId : ShareId) (peerId : PeerId) :
    ProviderState × List OutputEvent :=
  (removeConnection st shareId peerId, [.providerDisconnected shareId peerId])

/-- `#transform.inbound` (lines 176-185): decrypt `encrypted` frames with
the sender's session key; pass everything else through. -/
def transformInbound (st : ProviderState) (message : NetMessage) :
    Except JSError InboundPayload :=
  match message with
  | .encryptedMsg senderId _ shareId encryptedMessage => do
      let connection ← getConnection st shareId senderId
      let decryptedMessage ← decrypt encryptedMessage connection.sessionKey
      pure (.decrypted decryptedMessage)
  | m => pure (.original m)

/-- The body of the `message` handler (lines 85-105), before the
`catch`: auth frames are buffered when `shareId in this.#connections`
fails, otherwise delivered to the sender's connection; other frames are
transformed and re-emitted. The returned state is the state at normal
return or at the point the exception was thrown. -/
def handleMessageInner (st : ProviderState) (message : NetMessage) :
    ProviderState × Except JSError (List OutputEvent) :=
  match message with
  | .auth senderId _ shareId serializedConnectionMessage =>
      if ! recHas shareId st.connections then
        (storeMessage st shareId senderId serializedConnectionMessage, .ok [])
      else
        match getConnection st shareId senderId with
        | .error e => (st, .error e)
        | .ok connection =>
            let conn2 := connection.deliver serializedConnectionMessage
            let conns := (recLookup shareId st.connections).getD []
            ({ st with connections := recSet shareId (recSet senderId conn2 conns) st.connections },
             .ok [])
  | m =>
      match transformInbound st m with
      | .error e => (st, .error e)
      | .ok transformedPayload => (st, .ok [.adapterMessage transformedPayload])

/-- The `message` handler with its `try`/`catch` (lines 84-114): any
exception is surfaced as an `error` event on the authenticated adapter
carrying `message.senderId`, and does not propagate further. -/
def handleMessage (st : ProviderState) (message : NetMessage) :
    ProviderState × List OutputEvent :=
  match handleMessageInner st message with
  | (st2, .ok events) => (st2, events)
  | (st2, .error e) => (st2, [.adapterError message.senderId e])

/-- The `peer-candidate` handler on the base adapter (lines 72-80):
record the peer and optimistically open a connection for every share and
invitation; nothing is forwarded to the repo here. -/
def basePeerCandidateStep (st : ProviderState) (peerId : PeerId) :
    ProviderState × List OutputEvent :=
  let st2 := addPeer st peerId
  ((allShareIds st2).foldl (fun acc shareId => createConnection acc shareId peerId) st2, [])

/-- The loop body of the `peer-disconnected` handler (lines 116-120):
`peerId in this.#connections[shareId]` throws a TypeError when
`this.#connections[shareId]` is undefined; the handler has no
`try`/`catch`, so the exception aborts the loop. -/
def peerDisconnectedLoop (st : ProviderState) (peerId : PeerId)
    (events : List OutputEvent) :
    List ShareId → (ProviderState × List OutputEvent) × Except JSError Unit
  | [] => ((st, events), .ok ())
  | shareId :: rest =>
      match recLookup shareId st.connections with
      | none => ((st, events), .error .typeErr)
      | some conns =>
          if recHas peerId conns then
            let r := disconnectStep st shareId peerId
            peerDisconnectedLoop r.1 peerId (events ++ r.2) rest
          else peerDisconnectedLoop st peerId events rest

/-- The `peer-disconnected` handler on the base adapter (lines 116-120). -/
def handlePeerDisconnected (st : ProviderState) (peerId : PeerId) :
    (ProviderState × List OutputEvent) × Except JSError Unit :=
  peerDisconnectedLoop st peerId [] (allShareIds st)

/-- State after the synchronous prefix of the `joined` handler
(lines 260-261): the user is stored and `addTeam(team)` has recorded the
share (and opened sessions). -/
def joinedPhase1 (st : ProviderState) (team : Team) (user : String) : ProviderState :=
  addTeamState { st with user := some user } team

/-- State when the handler resumes after `await this.#saveState()`
(line 263): the state has been persisted but the consumed invitation has
not yet been deleted. -/
def joinedPhase2 (st : ProviderState) (team : Team) (user : String) : ProviderState :=
  (saveState (joinedPhase1 st team user)).1

/-- State after `delete this.#invitations[shareId]` (line 266). -/
def joinedPhase3 (st : ProviderState) (shareId : ShareId) (team : Team) (user : String) :
    ProviderState :=
  let st2 := joinedPhase2 st team user
  { st2 with invitations := recDelete shareId st2.invitations }

/-- The observable states of the `joined` handler (lines 254-270), in
order: after the synchronous prefix, at the resumption of the
`#saveState` await, and at handler completion. -/
def joinedTrajectory (st : ProviderState) (shareId : ShareId) (team : Team) (user : String) :
    List ProviderState :=
  [joinedPhase1 st team user, joinedPhase2 st team user, joinedPhase3 st shareId team user]

/-- The `joined` connection handler as one step (lines 254-270):
final state plus emitted events (the storage write, then the outward
`joined`). -/
def joinedStep (st : ProviderState) (shareId : ShareId) (peerId : PeerId) (team : Team)
    (user : String) : ProviderState × List OutputEvent :=
  (joinedPhase3 st shareId team user,
   (saveState (joinedPhase1 st team user)).2 ++ [.providerJoined shareId peerId])

/-- The `connected` connection handler (lines 272-278): when the tracked
connection for (shareId, peerId) completes its handshake (per the
library contract `connected` fires exactly once, from `handshaking`, and
populates the session key), emit `connected` outward and announce the
peer to the repo with `peer-candidate`. -/
def connectedStep (st : ProviderState) (shareId : ShareId) (peerId : PeerId)
    (sessionKey : String) : ProviderState × List OutputEvent :=
  match (recLookup shareId st.connections).bind (fun r => recLookup peerId r) with
  | some conn =>
      if conn.status = ConnStatus.handshaking then
        let conn2 := { conn with status := .connected, sessionKey := sessionKey }
        let conns := (recLookup shareId st.connections).getD []
        ({ st with connections := recSet shareId (recSet peerId conn2 conns) st.connections },
         [.providerConnected shareId peerId, .adapterPeerCandidate peerId])
      else (st, [])
  | none => (st, [])

/-- The `updated` connection handler (lines 280-282): re-save state. -/
def updatedStep (st : ProviderState) : ProviderState × List OutputEvent :=
  saveState st

/-- One input to the provider: an event on the wrapped base adapter, a
public operation, or a lifecycle event of one of its auth connections. -/
inductive ProviderInput : Type
  | basePeerCandidate (peerId : PeerId)
  | netMessage (message : NetMessage)
  | basePeerDisconnected (peerId : PeerId)
  | addTeam (team : Team)
  | addInvitation (invitation : Invitation)
  | connConnected (shareId : ShareId) (peerId : PeerId) (sessionKey : String)
  | connJoined (shareId : ShareId) (peerId : PeerId) (team : Team) (user : String)
  | connUpdated
  | connDisconnected (shareId : ShareId) (peerId : PeerId)

/-- Dispatch one input to its handler. An exception escaping the
`peer-disconnected` handler leaves the partial effects in place. -/
def step (st : ProviderState) : ProviderInput → ProviderState × List OutputEvent
  | .basePeerCandidate p => basePeerCandidateStep st p
  | .netMessage m => handleMessage st m
  | .basePeerDisconnected p => (handlePeerDisconnected st p).1
  | .addTeam team => (addTeamState st team, [])
  | .addInvitation invitation => (addInvitationState st invitation, [])
  | .connConnected s p k => connectedStep st s p k
  | .connJoined s p team user => joinedStep st s p team user
  | .connUpdated => updatedStep st
  | .connDisconnected s p => disconnectStep st s p

/-- Run a sequence of inputs, concatenating the emitted events. -/
def run (st : ProviderState) : List ProviderInput → ProviderState × List OutputEvent
  | [] => (st, [])
  | i :: rest =>
      let r := step st i
      let r2 := run r.1 rest
      (r2.1, r.2 ++ r2.2)

/-- `#getShareIdForMessage`, the candidate filter (lines 447-450):
`Object.keys(this.#shares).filter(shareId => targetId in this.#connections[shareId])`.
Reading `targetId in undefined` throws a TypeError. -/
def filterSharesForPeer (st : ProviderState) (targetId : PeerId) :
    List ShareId → Except JSError (List ShareId)
  | [] => .ok []
  | shareId :: rest =>
      match recLookup shareId st.connections with
      | none => .error .typeErr
      | some conns => do
          let tail ← filterSharesForPeer st targetId rest
          pure (if recHas targetId conns then shareId :: tail else tail)

/-- The session key this provider holds for (shareId, targetId), empty
when no such session exists. -/
def sessionKeyOf (st : ProviderState) (shareId : ShareId) (targetId : PeerId) : String :=
  (((recLookup shareId st.connections).bind (fun r => recLookup targetId r)).map
    Conn.sessionKey).getD ""

/-- Stable insertion into a list sorted by session key (the comparator
`bySessionKey` of lines 465-469; `localeCompare` is modelled as
lexicographic string comparison). -/
def insertBySessionKey (st : ProviderState) (targetId : PeerId) (x : ShareId) :
    List ShareId → List ShareId
  | [] => [x]
  | y :: ys =>
      if sessionKeyOf st y targetId ≤ sessionKeyOf st x targetId then
        y :: insertBySessionKey st targetId x ys
      else x :: y :: ys

/-- `shareIdsForPeer.sort(bySessionKey)` (line 470), as a stable
insertion sort. -/
def sortBySessionKey (st : ProviderState) (targetId : PeerId) :
    List ShareId → List ShareId
  | [] => []
  | x :: xs => insertBySessionKey st targetId x (sortBySessionKey st targetId xs)

/-- Does this provider hold a session for (shareId, targetId)? (The
candidate predicate of the outbound share choice as the spec states it.) -/
def hasSessionWith (st : ProviderState) (shareId : ShareId) (targetId : PeerId) : Bool :=
  match recLookup shareId st.connections with
  | some conns => recHas targetId conns
  | none => false

/-- `#getShareIdForMessage` (lines 441-471). -/
def getShareIdForMessage (st : ProviderState) (targetId : PeerId) :
    Except JSError ShareId := do
  let shareIdsForPeer ← filterSharesForPeer st targetId (recKeys st.shares)
  match shareIdsForPeer with
  | [] => .error (.noShareForPeer targetId)
  | [s] => .ok s
  | l => .ok ((sortBySessionKey st targetId l).headD "")

/-- The strings a reader of the persisted bytes can see without holding
any decryption key: everything except the contents and keys of sealed
boxes. -/
def plainStrings : Value → List String
  | .bytes _ => []
  | .str s => [s]
  | .sealedBox _ _ => []
  | .vmap [] => []
  | .vmap ((k, v) :: rest) => k :: (plainStrings v ++ plainStrings (.vmap rest))

/-- The strings visible in a persisted blob. -/
def blobPlainStrings : Blob → List String
  | .cbor v => plainStrings v

/-- Count the `peer-candidate` announcements for one peer in an event
list. -/
def countPeerCandidate (p : PeerId) : List OutputEvent → Nat
  | [] => 0
  | .adapterPeerCandidate q :: rest => (if q = p then 1 else 0) + countPeerCandidate p rest
  | _ :: rest => countPeerCandidate p rest

/-- The share ids present in a persisted blob. -/
def savedShareIds : Option Blob → List String
  | some (.cbor (.vmap entries)) => entries.map Prod.fst
  | _ => []

/-- The candidate set of the outbound share choice, as the specification
states it: the share ids in `shares` for which the target has a
session. -/
def outboundCandidates (st : ProviderState) (targetId : PeerId) : List ShareId :=
  (recKeys st.shares).filter (fun sid => hasSessionWith st sid targetId)

/-!
### Concrete example states

Small closed provider states used to evaluate the handlers on explicit
inputs.
-/

/-- A device configuration. -/
def dev0 : DeviceWithSecrets :=
  { userId := "alice-laptop", keys := { secretKey := "sk0" } }

/-- A team whose id is `"s"`. -/
def teamS : Team :=
  { id := "s", graph := .bytes [1], keyring := .bytes [2], graphKey := "tk" }

/-- The share wrapping `teamS`. -/
def shareS : Share :=
  { shareId := "s", team := teamS, documentIds := [] }

/-- An invitation for share `"s"`. -/
def invS : Invitation :=
  { shareId := "s", invitationSeed := "seed" }

/-- A connected session with peer `p1`. -/
def connP1 : Conn :=
  { sessionKey := "ka", status := .connected, delivered := [] }

/-- A provider owning share `"s"` with one session, to peer `"p1"`. -/
def stPair : ProviderState :=
  { initialProvider dev0 with
    shares := [("s", shareS)]
    connections := [("s", [("p1", connP1)])]
    peers := ["p1"] }

/-- The provider state right after `addInvitation(invS)` on a fresh
provider with no known peers. -/
def stInv : ProviderState :=
  (step (initialProvider dev0) (.addInvitation invS)).1

/-- A fresh provider with two buffered payloads for (`"s"`, `"p"`). -/
def stBuf : ProviderState :=
  storeMessage (storeMessage (initialProvider dev0) "s" "p" "m1") "s" "p" "m2"

/-- A second team, with id `"s1"`. -/
def teamS1 : Team :=
  { id := "s1", graph := .bytes [3], keyring := .bytes [4], graphKey := "tk1" }

/-- A third team, with id `"s2"`. -/
def teamS2 : Team :=
  { id := "s2", graph := .bytes [5], keyring := .bytes [6], graphKey := "tk2" }

/-- A provider that is a member of two shares, with a handshaking
session to the same peer `"p"` on each. -/
def stTwo : ProviderState :=
  { initialProvider dev0 with
    shares := [("s1", { shareId := "s1", team := teamS1, documentIds := [] }),
               ("s2", { shareId := "s2", team := teamS2, documentIds := [] })]
    connections := [("s1", [("p", newConnection)]), ("s2", [("p", newConnection)])]
    peers := ["p"] }

/-- A provider that is a member of two shares, with a connected session
to the same peer `"p"` on each; the session keys differ. -/
def stSel : ProviderState :=
  { initialProvider dev0 with
    shares := [("s1", { shareId := "s1", team := teamS1, documentIds := [] }),
               ("s2", { shareId := "s2", team := teamS2, documentIds := [] })]
    connections := [("s1", [("p", { sessionKey := "kb", status := .connected, delivered := [] })]),
                    ("s2", [("p", { sessionKey := "ka", status := .connected, delivered := [] })])]
    peers := ["p"] }

/-- A provider with a connections record for share `"s"` that holds no
session for any peer. -/
def stErr : ProviderState :=
  { initialProvider dev0 with connections := [("s", [])] }

end Provider

/-!
## Record lemmas
-/

namespace LfAuth

@[simp] theorem recLookup_nil {β : Type} (k : String) : recLookup k ([] : Rec β) = none := rfl

@[simp] theorem recLookup_cons {β : Type} (k k2 : String) (v : β) (rest : Rec β) :
    recLookup k ((k2, v) :: rest) = if k2 = k then some v else recLookup k rest := rfl

@[simp] theorem recLookup_recSet_self {β : Type} (k : String) (v : β) (r : Rec β) :
    recLookup k (recSet k v r) = some v := by
  induction r with
  | nil => simp [recSet]
  | cons hd tl ih =>
    obtain ⟨k2, v2⟩ := hd
    by_cases h : k2 = k
    · rw [recSet, if_pos h, recLookup_cons, if_pos h]
    · rw [recSet, if_neg h, recLookup_cons, if_neg h]
      exact ih

theorem recLookup_recSet_ne {β : Type} {k k2 : String} (h : ¬ k = k2) (v : β) (r : Rec β) :
    recLookup k2 (recSet k v r) = recLookup k2 r := by
  induction r with
  | nil => rw [recSet, recLookup_cons, if_neg h]
  | cons hd tl ih =>
    obtain ⟨k3, v3⟩ := hd
    by_cases h3 : k3 = k
    · subst h3
      rw [recSet, if_pos rfl, recLookup_cons, recLookup_cons, if_neg h, if_neg h]
    · rw [recSet, if_neg h3, recLookup_cons, recLookup_cons, ih]

theorem recLookup_recDelete_self {β : Type} (k : String) (r : Rec β)
    (hnd : (recKeys r).Nodup) : recLookup k (recDelete k r) = none := by
  induction r with
  | nil => rfl
  | cons hd tl ih =>
    obtain ⟨k2, v2⟩ := hd
    simp only [recKeys, List.map_cons, List.nodup_cons] at hnd
    by_cases h : k2 = k
    · subst h
      rw [recDelete, if_pos rfl]
      clear ih
      induction tl with
      | nil => rw [recLookup_nil]
      | cons hd2 tl2 ih2 =>
        obtain ⟨k3, v3⟩ := hd2
        simp only [recKeys, List.map_cons, List.mem_cons, List.nodup_cons] at hnd
        have hk3 : ¬ k3 = k2 := fun heq => hnd.1 (Or.inl heq.symm)
        rw [recLookup_cons, if_neg hk3]
        exact ih2 ⟨fun hm => hnd.1 (Or.inr hm), hnd.2.2⟩
    · rw [recDelete, if_neg h, recLookup_cons, if_neg h]
      exact ih hnd.2

theorem recHas_false_head {β : Type} {k k2 : String} {v : β} {rest : Rec β}
    (h : recHas k ((k2, v) :: rest) = false) : ¬ k2 = k ∧ recHas k rest = false := by
  rw [recHas, recLookup_cons] at h
  by_cases hk : k2 = k
  · rw [if_pos hk] at h
    exact absurd h (by simp)
  · rw [if_neg hk] at h
    exact ⟨hk, h⟩

theorem recSet_eq_append {β : Type} (k : String) (v : β) (r : Rec β)
    (h : recHas k r = false) : recSet k v r = r ++ [(k, v)] := by
  induction r with
  | nil => rfl
  | cons hd tl ih =>
    obtain ⟨k2, v2⟩ := hd
    obtain ⟨hne, htl⟩ := recHas_false_head h
    rw [recSet, if_neg hne, ih htl]
    rfl

theorem recHas_append_single {β : Type} (k k2 : String) (v : β) (r : Rec β) :
    recHas k (r ++ [(k2, v)]) = (recHas k r || (k2 = k)) := by
  induction r with
  | nil =>
    rw [List.nil_append, recHas, recLookup_cons, recHas, recLookup_nil]
    by_cases h : k2 = k <;> simp [h]
  | cons hd tl ih =>
    obtain ⟨k3, v3⟩ := hd
    rw [List.cons_append, recHas, recLookup_cons, recHas, recLookup_cons]
    by_cases h : k3 = k
    · simp [h]
    · rw [if_neg h, if_neg h, ← recHas, ← recHas, ih]

end LfAuth

/-!
## Provider helper lemmas: the pending-message buffer and session creation
-/

namespace Provider

theorem popStoredMessage_none_eq {st : ProviderState} {s p : String} {st2 : ProviderState}
    (h : popStoredMessage st s p = (none, st2)) :
    st2 = st ∧ storedQueue st s p = [] := by
  rcases hq : storedQueue st s p with _ | ⟨a, rest⟩
  · simp only [popStoredMessage, hq, Prod.mk.injEq, true_and] at h
    exact ⟨h.symm, rfl⟩
  · simp [popStoredMessage, hq] at h

theorem popStoredMessage_some_spec {st : ProviderState} {s p : String} {m : String}
    {st2 : ProviderState} (h : popStoredMessage st s p = (some m, st2)) :
    storedQueue st s p = m :: storedQueue st2 s p ∧
    st2.shares = st.shares ∧ st2.invitations = st.invitations ∧
    st2.connections = st.connections ∧ st2.storedShares = st.storedShares ∧
    st2.peers = st.peers ∧ st2.device = st.device ∧ st2.user = st.user := by
  rcases hq : storedQueue st s p with _ | ⟨a, rest⟩
  · simp [popStoredMessage, hq] at h
  · simp only [popStoredMessage, hq, Prod.mk.injEq, Option.some.injEq] at h
    obtain ⟨hm, hst⟩ := h
    subst hm
    rw [← hst]
    refine ⟨?_, rfl, rfl, rfl, rfl, rfl, rfl, rfl⟩
    simp [storedQueue]

theorem drainLoop_eq_none {st : ProviderState} {s p : String} {st2 : ProviderState}
    (conn : Conn) (h : popStoredMessage st s p = (none, st2)) :
    drainLoop st s p conn = (st2, conn) := by
  rw [drainLoop]
  split
  next st3 heq =>
    rw [h] at heq
    injection heq with h1 h2
    rw [h2]
  next m st3 heq =>
    rw [h] at heq
    injection heq with h1 h2
    exact absurd h1 (by simp)

theorem drainLoop_eq_some {st : ProviderState} {s p : String} {m : String}
    {st2 : ProviderState} (conn : Conn) (h : popStoredMessage st s p = (some m, st2)) :
    drainLoop st s p conn = drainLoop st2 s p (conn.deliver m) := by
  rw [drainLoop]
  split
  next st3 heq =>
    rw [h] at heq
    injection heq with h1 h2
    exact absurd h1 (by simp)
  next m2 st3 heq =>
    rw [h] at heq
    injection heq with h1 h2
    injection h1 with h1
    rw [h1, h2]

theorem drainLoop_spec (st : ProviderState) (s : ShareId) (p : PeerId) (conn : Conn) :
    (drainLoop st s p conn).2 = { conn with delivered := conn.delivered ++ storedQueue st s p } ∧
    storedQueue (drainLoop st s p conn).1 s p = [] ∧
    (drainLoop st s p conn).1.shares = st.shares ∧
    (drainLoop st s p conn).1.invitations = st.invitations ∧
    (drainLoop st s p conn).1.connections = st.connections ∧
    (drainLoop st s p conn).1.storedShares = st.storedShares ∧
    (drainLoop st s p conn).1.peers = st.peers ∧
    (drainLoop st s p conn).1.device = st.device ∧
    (drainLoop st s p conn).1.user = st.user := by
  induction st, s, p, conn using drainLoop.induct
  case case1 st s p conn st2 h =>
    obtain ⟨hst, hq⟩ := popStoredMessage_none_eq h
    subst hst
    rw [drainLoop_eq_none conn h, hq]
    exact ⟨by simp, rfl, rfl, rfl, rfl, rfl, rfl, rfl, rfl⟩
  case case2 st s p conn m st2 h ih =>
    obtain ⟨hq, hsh, hinv, hco, hss, hpe, hde, hus⟩ := popStoredMessage_some_spec h
    rw [drainLoop_eq_some conn h]
    obtain ⟨ih1, ih2, ih3, ih4, ih5, ih6, ih7, ih8, ih9⟩ := ih
    refine ⟨?_, ih2, ih3.trans hsh, ih4.trans hinv, ih5.trans hco, ih6.trans hss,
      ih7.trans hpe, ih8.trans hde, ih9.trans hus⟩
    rw [ih1, hq]
    simp [Conn.deliver]

end Provider

namespace Provider

open LfAuth

theorem createConnection_spec (st : ProviderState) (s : ShareId) (p : PeerId) :
    (recLookup s (createConnection st s p).connections).bind (fun r => recLookup p r) =
      some { newConnection with delivered := storedQueue st s p } ∧
    storedQueue (createConnection st s p) s p = [] ∧
    (createConnection st s p).shares = st.shares ∧
    (createConnection st s p).invitations = st.invitations ∧
    (createConnection st s p).storedShares = st.storedShares ∧
    (createConnection st s p).peers = st.peers ∧
    (createConnection st s p).device = st.device ∧
    (createConnection st s p).user = st.user := by
  obtain ⟨h1, h2, h3, h4, h5, h6, h7, h8, h9⟩ := drainLoop_spec st s p newConnection
  refine ⟨?_, h2, h3, h4, h6, h7, h8, h9⟩
  unfold createConnection
  simp only [newConnection] at h1
  simp [h1, newConnection]

theorem foldCreate_fields (s : ShareId) (l : List PeerId) (st : ProviderState) :
    ((l.foldl (fun acc peerId =>
        match (recLookup s acc.connections).bind (fun r => recLookup peerId r) with
        | some _ => acc
        | none => createConnection acc s peerId) st).shares = st.shares ∧
     (l.foldl (fun acc peerId =>
        match (recLookup s acc.connections).bind (fun r => recLookup peerId r) with
        | some _ => acc
        | none => createConnection acc s peerId) st).invitations = st.invitations ∧
     (l.foldl (fun acc peerId =>
        match (recLookup s acc.connections).bind (fun r => recLookup peerId r) with
        | some _ => acc
        | none => createConnection acc s peerId) st).storedShares = st.storedShares ∧
     (l.foldl (fun acc peerId =>
        match (recLookup s acc.connections).bind (fun r => recLookup peerId r) with
        | some _ => acc
        | none => createConnection acc s peerId) st).peers = st.peers ∧
     (l.foldl (fun acc peerId =>
        match (recLookup s acc.connections).bind (fun r => recLookup peerId r) with
        | some _ => acc
        | none => createConnection acc s peerId) st).device = st.device ∧
     (l.foldl (fun acc peerId =>
        match (recLookup s acc.connections).bind (fun r => recLookup peerId r) with
        | some _ => acc
        | none => createConnection acc s peerId) st).user = st.user) := by
  induction l generalizing st with
  | nil => exact ⟨rfl, rfl, rfl, rfl, rfl, rfl⟩
  | cons p rest ih =>
    rw [List.foldl_cons]
    rcases hlk : (recLookup s st.connections).bind (fun r => recLookup p r) with _ | c
    · simp only [hlk]
      obtain ⟨i1, i2, i3, i4, i5, i6⟩ := ih (createConnection st s p)
      obtain ⟨c1, c2, c3, c4, c5, c6, c7, c8⟩ := createConnection_spec st s p
      exact ⟨i1.trans c3, i2.trans c4, i3.trans c5, i4.trans c6, i5.trans c7, i6.trans c8⟩
    · simp only [hlk]
      exact ih st

theorem createConnectionsForShare_fields (st : ProviderState) (s : ShareId) :
    (createConnectionsForShare st s).shares = st.shares ∧
    (createConnectionsForShare st s).invitations = st.invitations ∧
    (createConnectionsForShare st s).storedShares = st.storedShares ∧
    (createConnectionsForShare st s).peers = st.peers ∧
    (createConnectionsForShare st s).device = st.device ∧
    (createConnectionsForShare st s).user = st.user := by
  unfold createConnectionsForShare
  exact foldCreate_fields s st.peers st

theorem addTeamState_fields (st : ProviderState) (team : Team) :
    (addTeamState st team).shares =
      recSet team.id { shareId := team.id, team := team, documentIds := [] } st.shares ∧
    (addTeamState st team).invitations = st.invitations ∧
    (addTeamState st team).storedShares = st.storedShares ∧
    (addTeamState st team).peers = st.peers ∧
    (addTeamState st team).device = st.device ∧
    (addTeamState st team).user = st.user := by
  unfold addTeamState
  exact createConnectionsForShare_fields _ team.id

theorem addInvitationState_fields (st : ProviderState) (invitation : Invitation) :
    (addInvitationState st invitation).shares = st.shares ∧
    (addInvitationState st invitation).invitations =
      recSet invitation.shareId invitation st.invitations ∧
    (addInvitationState st invitation).storedShares = st.storedShares ∧
    (addInvitationState st invitation).peers = st.peers ∧
    (addInvitationState st invitation).device = st.device ∧
    (addInvitationState st invitation).user = st.user := by
  unfold addInvitationState
  obtain ⟨f1, f2, f3, f4, f5, f6⟩ := createConnectionsForShare_fields
    { st with invitations := recSet invitation.shareId invitation st.invitations }
    invitation.shareId
  exact ⟨f1, f2, f3, f4, f5, f6⟩

end Provider

namespace Provider

open LfAuth

theorem handleMessage_no_candidate (st : ProviderState) (m : NetMessage) (p : PeerId) :
    OutputEvent.adapterPeerCandidate p ∉ (handleMessage st m).2 := by
  unfold handleMessage handleMessageInner
  rcases m with ⟨sd, td, sid, msg⟩ | ⟨sd, td, sid, em⟩ | ⟨sd, td, body⟩
  · rcases hb : recHas sid st.connections with _ | _
    · simp [hb]
    · rcases hg : getConnection st sid sd with e | c <;> simp [hb, hg]
  · rcases ht : transformInbound st (NetMessage.encryptedMsg sd td sid em) with e | pl <;>
      simp [ht]
  · rcases ht : transformInbound st (NetMessage.passThrough sd td body) with e | pl <;>
      simp [ht]

theorem peerDisconnectedLoop_no_candidate (p q : PeerId) (l : List ShareId) :
    ∀ (st : ProviderState) (events : List OutputEvent),
      OutputEvent.adapterPeerCandidate q ∉ events →
      OutputEvent.adapterPeerCandidate q ∉ ((peerDisconnectedLoop st p events l).1).2 := by
  induction l with
  | nil => intro st events h; exact h
  | cons s rest ih =>
    intro st events h
    rw [peerDisconnectedLoop]
    rcases hlk : recLookup s st.connections with _ | conns
    · exact h
    · by_cases hhas : recHas p conns
      · simp only [hhas, if_true]
        refine ih _ _ ?_
        simp only [disconnectStep, List.mem_append]
        rintro (hc | hc)
        · exact h hc
        · simp at hc
      · simp only [hhas]
        exact ih st events h

end Provider

namespace Provider

open LfAuth

/-- C2: for every provider input, a `peer-candidate` for peer `p` is
emitted toward the repository only when, at that step, a session with
`p` (for some share) has just reached the `connected` state — such a
connected session exists in the resulting provider state — and the input
that produces the emission is never the base adapter's own
`peer-candidate` signal, which is therefore never forwarded directly. -/
theorem peer_candidate_requires_connected_session (st : ProviderState) (i : ProviderInput)
    (p : PeerId) (h : OutputEvent.adapterPeerCandidate p ∈ (step st i).2) :
    (∃ s conns c, recLookup s (step st i).1.connections = some conns ∧
      recLookup p conns = some c ∧ c.status = ConnStatus.connected) ∧
    (∀ q, i ≠ ProviderInput.basePeerCandidate q) := by
  rcases i with q | m | q | team | invitation | ⟨s, q, k⟩ | ⟨s, q, team, user⟩ | _ | ⟨s, q⟩
  · simp [step, basePeerCandidateStep] at h
  · exact absurd h (handleMessage_no_candidate st m p)
  · exact absurd h (peerDisconnectedLoop_no_candidate q p (allShareIds st) st [] (by simp))
  · simp [step] at h
  · simp [step] at h
  · have hstep : step st (ProviderInput.connConnected s q k) = connectedStep st s q k := rfl
    rw [hstep] at h ⊢
    unfold connectedStep at h ⊢
    rcases hlk : (recLookup s st.connections).bind (fun r => recLookup q r) with _ | conn
    · simp only [hlk] at h
      simp at h
    · simp only [hlk] at h ⊢
      by_cases hhs : conn.status = ConnStatus.handshaking
      · rw [if_pos hhs] at h ⊢
        simp only [List.mem_cons, List.not_mem_nil, or_false] at h
        rcases h with h | h
        · exact absurd h (by simp)
        · have hpq : p = q := by injection h
          subst hpq
          constructor
          · refine ⟨s,
              recSet p { sessionKey := k, status := ConnStatus.connected, delivered := conn.delivered }
                ((recLookup s st.connections).getD []),
              { sessionKey := k, status := ConnStatus.connected, delivered := conn.delivered },
              ?_, ?_, rfl⟩
            · exact recLookup_recSet_self s _ st.connections
            · exact recLookup_recSet_self p _ _
          · exact fun q2 hfalse => ProviderInput.noConfusion hfalse
      · rw [if_neg hhs] at h
        simp at h
  · simp [step, joinedStep, saveState] at h
  · simp [step, updatedStep, saveState] at h
  · simp [step, disconnectStep] at h

/-- Witness for C2 at a concrete input: connecting the session for
(`"s1"`, `"p"`) of `stTwo` emits its `peer-candidate`, and a connected
session for `"p"` exists in the resulting state. -/
theorem peer_candidate_requires_connected_session_witness :
    ∃ s conns c,
      recLookup s (step stTwo (ProviderInput.connConnected "s1" "p" "k1")).1.connections =
        some conns ∧ recLookup "p" conns = some c ∧ c.status = ConnStatus.connected :=
  (peer_candidate_requires_connected_session stTwo (.connConnected "s1" "p" "k1") "p"
    (by simp [step, connectedStep, stTwo, newConnection, initialProvider, dev0])).1

end Provider

namespace Provider

open LfAuth

/-- C8 counterexample: `stTwo` holds a handshaking session to peer `"p"`
on each of two shares. When the first session connects, `peer-candidate`
for `"p"` is emitted; when the second session for the same peer then
connects, a second `peer-candidate` for `"p"` is emitted on the same
authenticated adapter — the provider performs no deduplication. -/
theorem repeat_connected_counterexample :
    (run stTwo [ProviderInput.connConnected "s1" "p" "k1",
                ProviderInput.connConnected "s2" "p" "k2"]).2 =
      [OutputEvent.providerConnected "s1" "p", OutputEvent.adapterPeerCandidate "p",
       OutputEvent.providerConnected "s2" "p", OutputEvent.adapterPeerCandidate "p"] ∧
    countPeerCandidate "p"
      (run stTwo [ProviderInput.connConnected "s1" "p" "k1",
                  ProviderInput.connConnected "s2" "p" "k2"]).2 = 2 :=
  ⟨rfl, rfl⟩

/-- C8 (amended): the `connected` handler announces its peer
unconditionally — every session that completes its handshake emits
`peer-candidate` for its peer, including a later session for a peer that
was already announced; deduplication is left to the caller. -/
theorem connected_always_announces (st : ProviderState) (s : ShareId) (p : PeerId)
    (k : String) (conns : Rec Conn) (c : Conn)
    (hconns : recLookup s st.connections = some conns)
    (hc : recLookup p conns = some c) (hhs : c.status = ConnStatus.handshaking) :
    (step st (ProviderInput.connConnected s p k)).2 =
      [OutputEvent.providerConnected s p, OutputEvent.adapterPeerCandidate p] := by
  have hstep : step st (ProviderInput.connConnected s p k) = connectedStep st s p k := rfl
  rw [hstep]
  unfold connectedStep
  have hlk : (recLookup s st.connections).bind (fun r => recLookup p r) = some c := by
    rw [hconns]
    exact hc
  simp only [hlk, if_pos hhs]

/-- Witness for C8's amended statement: the second session of `stTwo`
connecting emits another `peer-candidate` for `"p"`. -/
theorem connected_always_announces_witness :
    (step stTwo (ProviderInput.connConnected "s2" "p" "k2")).2 =
      [OutputEvent.providerConnected "s2" "p", OutputEvent.adapterPeerCandidate "p"] :=
  connected_always_announces stTwo "s2" "p" "k2" [("p", newConnection)] newConnection
    rfl rfl rfl

end Provider

namespace Provider

open LfAuth

/-- C4 counterexample: a concrete `addTeam` call on a fresh provider
performs no storage write — it emits no storage event and leaves the
stored blob absent — contradicting "persists the serialized shares map
to storage before the operation completes". -/
theorem add_team_no_save_counterexample :
    (step (initialProvider dev0) (ProviderInput.addTeam teamS)).2 = [] ∧
    (step (initialProvider dev0) (ProviderInput.addTeam teamS)).1.storedShares = none :=
  ⟨rfl, rfl⟩

/-- C4 (amended): neither `addTeam` nor `addInvitation` writes to
storage: both emit no storage event and leave the persisted blob
untouched; state saves happen only in the `joined` and `updated`
connection handlers. -/
theorem admission_no_storage_write (st : ProviderState) (team : Team)
    (invitation : Invitation) :
    (step st (ProviderInput.addTeam team)).2 = [] ∧
    (step st (ProviderInput.addTeam team)).1.storedShares = st.storedShares ∧
    (step st (ProviderInput.addInvitation invitation)).2 = [] ∧
    (step st (ProviderInput.addInvitation invitation)).1.storedShares = st.storedShares := by
  refine ⟨rfl, ?_, rfl, ?_⟩
  · exact (addTeamState_fields st team).2.2.1
  · exact (addInvitationState_fields st invitation).2.2.1

/-- C6: if the inbound processing of a frame throws, the `catch` of the
`message` handler emits exactly one `error { peerId: senderId, error }`
event on the authenticated adapter, the exception propagates no further
(the handler is total), and the provider state — in particular the
session record — is exactly as it was before the frame arrived. -/
theorem inbound_error_containment (st : ProviderState) (m : NetMessage) (e : JSError)
    (h : (handleMessageInner st m).2 = Except.error e) :
    handleMessage st m = (st, [OutputEvent.adapterError m.senderId e]) := by
  have hfst : (handleMessageInner st m).1 = st := by
    rcases m with ⟨sd, td, sid, msg⟩ | ⟨sd, td, sid, em⟩ | ⟨sd, td, body⟩
    · unfold handleMessageInner at h ⊢
      rcases hb : recHas sid st.connections with _ | _
      · simp [hb] at h
      · rcases hg : getConnection st sid sd with e2 | c
        · simp [hb, hg]
        · simp [hb, hg] at h
    · unfold handleMessageInner at h ⊢
      rcases ht : transformInbound st (NetMessage.encryptedMsg sd td sid em) with e2 | pl
      · simp [ht]
      · simp [ht] at h
    · unfold handleMessageInner at h ⊢
      rcases ht : transformInbound st (NetMessage.passThrough sd td body) with e2 | pl
      · simp [ht]
      · simp [ht] at h
  unfold handleMessage
  rcases hi : handleMessageInner st m with ⟨st2, exc⟩
  rw [hi] at h hfst
  have h2 : exc = Except.error e := h
  have h3 : st2 = st := hfst
  subst h2
  subst h3
  rfl

/-- Witness for C6 at a concrete input: `stErr` has a connections record
for share `"s"` with no session for peer `"p"`; the auth frame from
`"p"` makes the session lookup throw, and the handler returns the state
unchanged with one error event. -/
theorem inbound_error_containment_witness :
    handleMessage stErr (NetMessage.auth "p" "t" "s" "x") =
      (stErr, [OutputEvent.adapterError "p" JSError.connectionNotFound]) :=
  inbound_error_containment stErr (NetMessage.auth "p" "t" "s" "x")
    JSError.connectionNotFound rfl

/-- C1 counterexample: `stPair` has a session for (`"s"`, `"p1"`) but
none for (`"s"`, `"p2"`). An auth frame from `"p2"` on share `"s"` — a
pair with no session — is NOT buffered: the message store stays empty
and the handler emits a "Connection not found" error instead, because
the buffering check `shareId in this.#connections` tests only the share,
not the (share, sender) pair. -/
theorem auth_buffer_pair_counterexample :
    (recLookup "s" stPair.connections).bind (fun r => recLookup "p2" r) = none ∧
    (handleMessage stPair (NetMessage.auth "p2" "me" "s" "hello")).1.messageStore = [] ∧
    (handleMessage stPair (NetMessage.auth "p2" "me" "s" "hello")).2 =
      [OutputEvent.adapterError "p2" JSError.connectionNotFound] :=
  ⟨rfl, rfl, rfl⟩

/-- C1 (amended): an incoming auth frame is buffered (FIFO, keyed by the
(shareId, senderId) pair) exactly when its shareId has NO entry in the
connections record at all; when a session for a pair is created, the
pair's buffered payloads are delivered to it in arrival order and the
buffer is emptied, and a frame arriving after creation is appended to
the session's delivery log after the drained payloads. -/
theorem auth_buffering_per_share_and_drain (st st2 st3 : ProviderState)
    (shareId senderId targetId targetId2 peerId : String) (msg msg2 : String)
    (conns : Rec Conn) (c : Conn)
    (hnone : recLookup shareId st.connections = none)
    (hconns : recLookup shareId st3.connections = some conns)
    (hc : recLookup senderId conns = some c) :
    handleMessage st (NetMessage.auth senderId targetId shareId msg) =
      (storeMessage st shareId senderId msg, []) ∧
    storedQueue (storeMessage st shareId senderId msg) shareId senderId =
      storedQueue st shareId senderId ++ [msg] ∧
    ((recLookup shareId (createConnection st2 shareId peerId).connections).bind
        (fun r => recLookup peerId r)).map Conn.delivered =
      some (storedQueue st2 shareId peerId) ∧
    storedQueue (createConnection st2 shareId peerId) shareId peerId = [] ∧
    ((recLookup shareId
        (handleMessage st3 (NetMessage.auth senderId targetId2 shareId msg2)).1.connections).bind
        (fun r => recLookup senderId r)).map Conn.delivered =
      some (c.delivered ++ [msg2]) ∧
    (handleMessage st3 (NetMessage.auth senderId targetId2 shareId msg2)).2 = [] := by
  have hhas : recHas shareId st3.connections = true := by rw [recHas, hconns]; rfl
  have hget : getConnection st3 shareId senderId = Except.ok c := by
    unfold getConnection
    simp [hconns, hc]
  refine ⟨?_, ?_, ?_, (createConnection_spec st2 shareId peerId).2.1, ?_, ?_⟩
  · unfold handleMessage handleMessageInner
    simp [recHas, hnone]
  · simp [storeMessage, storedQueue]
  · rw [(createConnection_spec st2 shareId peerId).1]
    rfl
  · unfold handleMessage handleMessageInner
    simp [hhas, hget, hconns, Conn.deliver]
  · unfold handleMessage handleMessageInner
    simp [hhas, hget]

/-- Witness for C1's amended statement at concrete inputs: a fresh
provider buffers an orphan frame; creating the session for
(`"s"`, `"p"`) on `stBuf` delivers the two buffered payloads in order;
and on `stPair` a post-creation frame is appended to the session's log. -/
theorem auth_buffering_per_share_and_drain_witness :
    ((recLookup "s" (createConnection stBuf "s" "p").connections).bind
        (fun r => recLookup "p" r)).map Conn.delivered =
      some (storedQueue stBuf "s" "p") :=
  (auth_buffering_per_share_and_drain (initialProvider dev0) stBuf stPair
    "s" "p1" "t" "t2" "p" "m3" "m4" [("p1", connP1)] connP1 rfl rfl rfl).2.2.1

/-- C3 counterexample: starting from `stInv` (one pending invitation for
share `"s"`), run the `joined` handler for that share. At the resumption
of the `await this.#saveState()` — an observable suspension point of the
single-threaded executor — the share id `"s"` is in `shares`, the state
containing `"s"` has been persisted, and the consumed invitation for
`"s"` is still present. -/
theorem invitation_share_overlap_counterexample :
    recHas "s" (joinedPhase2 stInv teamS "alice").shares = true ∧
    recHas "s" (joinedPhase2 stInv teamS "alice").invitations = true ∧
    savedShareIds (joinedPhase2 stInv teamS "alice").storedShares = ["s"] :=
  ⟨rfl, rfl, rfl⟩

/-- C3 (amended): during invitation consumption the `joined` handler
admits the share and persists state BEFORE deleting the consumed
invitation, so at the suspension point of the state save the id is
present in both maps; once the handler completes, the invitation is
gone, the share remains, and the persisted blob is the one written
before the deletion. -/
theorem invitation_consumed_after_persist (st : ProviderState) (shareId : ShareId)
    (peerId : PeerId) (team : Team) (user : String)
    (hnd : (recKeys st.invitations).Nodup) :
    recHas team.id (joinedPhase1 st team user).shares = true ∧
    (joinedPhase1 st team user).invitations = st.invitations ∧
    (joinedPhase2 st team user).invitations = st.invitations ∧
    (joinedPhase2 st team user).storedShares =
      some (Blob.cbor (saveStateValue (joinedPhase1 st team user))) ∧
    recLookup shareId (joinedStep st shareId peerId team user).1.invitations = none ∧
    recHas team.id (joinedStep st shareId peerId team user).1.shares = true ∧
    (joinedStep st shareId peerId team user).1.storedShares =
      some (Blob.cbor (saveStateValue (joinedPhase1 st team user))) := by
  obtain ⟨a1, a2, a3, a4, a5, a6⟩ := addTeamState_fields { st with user := some user } team
  have h1 : recHas team.id (joinedPhase1 st team user).shares = true := by
    show recHas team.id (addTeamState { st with user := some user } team).shares = true
    rw [recHas, a1, recLookup_recSet_self]
    rfl
  have h2 : (joinedPhase1 st team user).invitations = st.invitations := a2
  have h3 : (joinedPhase2 st team user).invitations = st.invitations := a2
  have h5 : recLookup shareId (joinedStep st shareId peerId team user).1.invitations = none := by
    show recLookup shareId (recDelete shareId (joinedPhase2 st team user).invitations) = none
    rw [h3]
    exact recLookup_recDelete_self shareId st.invitations hnd
  exact ⟨h1, h2, h3, rfl, h5, h1, rfl⟩

/-- Witness for C3's amended statement: consuming the invitation of
`stInv` removes it from `invitations` by the end of the handler. -/
theorem invitation_consumed_after_persist_witness :
    recLookup "s" (joinedStep stInv "s" "pA" teamS "alice").1.invitations = none :=
  (invitation_consumed_after_persist stInv "s" "pA" teamS "alice" (by decide)).2.2.2.2.1

/-- C10: the `peer-disconnected` handler is NOT exception-free: in the
reachable state `stInv` (an invitation admitted while no peers were
known) the share id `"s"` is enumerated by `#allShareIds` while
`#connections["s"]` is undefined, so `peerId in this.#connections[shareId]`
throws a TypeError that no catch intercepts. -/
theorem peer_disconnected_handler_type_error :
    "s" ∈ allShareIds stInv ∧
    recLookup "s" stInv.connections = none ∧
    (handlePeerDisconnected stInv "p").2 = Except.error JSError.typeErr :=
  ⟨by decide, rfl, rfl⟩

end Provider

namespace Messages

theorem strictEqStr_eq_true_iff (v : JSVal) (lit : String) :
    strictEqStr v lit = true ↔ v = JSVal.str lit := by
  cases v <;> simp [strictEqStr]

/-- C9 counterexample: an object with string `type` `"auth"` and string
`senderId` is NOT classified as a valid repository message, because the
classifier additionally requires the `type` tag to be one of the six
known repo message types. -/
theorem unknown_type_not_valid_counterexample :
    jsTypeof (JSVal.obj [("type", JSVal.str "auth"), ("senderId", JSVal.str "alice")]) =
      "object" ∧
    jsTypeof (getProp
      (JSVal.obj [("type", JSVal.str "auth"), ("senderId", JSVal.str "alice")]) "type") =
      "string" ∧
    jsTypeof (getProp
      (JSVal.obj [("type", JSVal.str "auth"), ("senderId", JSVal.str "alice")]) "senderId") =
      "string" ∧
    isValidRepoMessage
      (JSVal.obj [("type", JSVal.str "auth"), ("senderId", JSVal.str "alice")]) = false :=
  ⟨rfl, rfl, rfl, rfl⟩

/-- C9 (amended): a frame is classified as a valid repository message
iff it is an object whose `senderId` is a string AND whose `type` is one
of the six known repo message tags (`sync`, `ephemeral`, `request`,
`doc-unavailable`, `remote-subscription-change`, `remote-heads-changed`);
a string `type` outside this set is rejected. -/
theorem is_valid_repo_message_characterization (m : JSVal) :
    isValidRepoMessage m = true ↔
      (jsTypeof m = "object" ∧
       jsTypeof (getProp m "senderId") = "string" ∧
       (getProp m "type" = JSVal.str "sync" ∨
        getProp m "type" = JSVal.str "ephemeral" ∨
        getProp m "type" = JSVal.str "request" ∨
        getProp m "type" = JSVal.str "doc-unavailable" ∨
        getProp m "type" = JSVal.str "remote-subscription-change" ∨
        getProp m "type" = JSVal.str "remote-heads-changed")) := by
  unfold isValidRepoMessage isSyncMessage isEphemeralMessage isRequestMessage
    isDocumentUnavailableMessage isRemoteSubscriptionControlMessage isRemoteHeadsChanged
  simp only [Bool.and_eq_true, Bool.or_eq_true, beq_iff_eq, strictEqStr_eq_true_iff]
  constructor
  · rintro ⟨⟨⟨hobj, htype⟩, hsender⟩, hdisj⟩
    exact ⟨hobj, hsender, by tauto⟩
  · rintro ⟨hobj, hsender, hdisj⟩
    refine ⟨⟨⟨hobj, ?_⟩, hsender⟩, by tauto⟩
    rcases hdisj with h | h | h | h | h | h <;> rw [h] <;> rfl

end Messages

/-!
## Outbound share selection (C5)
-/

namespace Provider

open LfAuth

theorem mem_insertBySessionKey (st : ProviderState) (t : PeerId) (x z : ShareId)
    (l : List ShareId) :
    z ∈ insertBySessionKey st t x l ↔ z = x ∨ z ∈ l := by
  induction l with
  | nil => simp [insertBySessionKey]
  | cons y ys ih =>
    rw [insertBySessionKey]
    by_cases hle : sessionKeyOf st y t ≤ sessionKeyOf st x t
    · rw [if_pos hle]
      simp only [List.mem_cons, ih]
      tauto
    · rw [if_neg hle]
      simp only [List.mem_cons]

theorem mem_sortBySessionKey (st : ProviderState) (t : PeerId) (z : ShareId)
    (l : List ShareId) :
    z ∈ sortBySessionKey st t l ↔ z ∈ l := by
  induction l with
  | nil => rw [sortBySessionKey]
  | cons x xs ih =>
    rw [sortBySessionKey, mem_insertBySessionKey]
    simp only [List.mem_cons, ih]

theorem sortBySessionKey_head_min (st : ProviderState) (t : PeerId) :
    ∀ (l : List ShareId) (m : ShareId) (rest : List ShareId),
      sortBySessionKey st t l = m :: rest →
      ∀ y ∈ l, sessionKeyOf st m t ≤ sessionKeyOf st y t := by
  intro l
  induction l with
  | nil => intro m rest h; rw [sortBySessionKey] at h; exact absurd h (by simp)
  | cons x xs ih =>
    intro m rest h y hy
    rw [sortBySessionKey] at h
    rcases hs : sortBySessionKey st t xs with _ | ⟨m2, r2⟩
    · rw [hs, insertBySessionKey] at h
      injection h with h1 h2
      subst h1
      rcases List.mem_cons.mp hy with rfl | hy2
      · exact le_refl _
      · have : y ∈ sortBySessionKey st t xs := (mem_sortBySessionKey st t y xs).mpr hy2
        rw [hs] at this
        exact absurd this (by simp)
    · rw [hs, insertBySessionKey] at h
      by_cases hle : sessionKeyOf st m2 t ≤ sessionKeyOf st x t
      · rw [if_pos hle] at h
        injection h with h1 h2
        subst h1
        rcases List.mem_cons.mp hy with rfl | hy2
        · exact hle
        · exact ih m2 r2 hs y hy2
      · rw [if_neg hle] at h
        injection h with h1 h2
        subst h1
        have hxm2 : sessionKeyOf st x t ≤ sessionKeyOf st m2 t := le_of_not_le hle
        rcases List.mem_cons.mp hy with rfl | hy2
        · exact le_refl _
        · exact le_trans hxm2 (ih m2 r2 hs y hy2)

theorem sortBySessionKey_ne_nil (st : ProviderState) (t : PeerId) (x : ShareId)
    (xs : List ShareId) : sortBySessionKey st t (x :: xs) ≠ [] := by
  intro h
  have : x ∈ sortBySessionKey st t (x :: xs) :=
    (mem_sortBySessionKey st t x (x :: xs)).mpr (by simp)
  rw [h] at this
  exact absurd this (by simp)

theorem filterSharesForPeer_ok (st : ProviderState) (t : PeerId) (l : List ShareId)
    (h : ∀ sid ∈ l, recHas sid st.connections = true) :
    filterSharesForPeer st t l = .ok (l.filter (fun sid => hasSessionWith st sid t)) := by
  induction l with
  | nil => rfl
  | cons sid rest ih =>
    have h1 : recHas sid st.connections = true := h sid (by simp)
    rw [recHas] at h1
    rcases hl : recLookup sid st.connections with _ | conns
    · rw [hl] at h1
      exact absurd h1 (by simp)
    · rw [filterSharesForPeer, hl]
      rw [ih (fun s2 hs2 => h s2 (by simp [hs2]))]
      show (Except.ok (rest.filter (fun sid => hasSessionWith st sid t))).bind _ = _
      rw [Except.bind]
      simp only [List.filter_cons]
      have hsw : hasSessionWith st sid t = recHas t conns := by
        rw [hasSessionWith, hl]
      rw [hsw]
      by_cases hhas : recHas t conns
      · rw [if_pos hhas]
        rfl
      · rw [if_neg hhas]
        rfl

/-- C5 (amended): the outbound share choice, in the states where the
candidate filter itself does not throw — every share holding a
connections record. Let the candidates be the share ids in `shares` for
which the target has a session: with no candidate the operation fails
with the "no share found for peer" error; with exactly one candidate
that share is chosen; with several, the chosen share is a candidate
whose session key is lexicographically least among the candidates,
making the choice deterministic. (When some admitted share has no
connections record the filter throws a TypeError first; see the
counterexample.) -/
theorem outbound_share_selection_rule (st : ProviderState) (targetId : PeerId)
    (hrec : ∀ sid ∈ recKeys st.shares, recHas sid st.connections = true) :
    (outboundCandidates st targetId = [] →
      getShareIdForMessage st targetId = .error (.noShareForPeer targetId)) ∧
    (∀ s, outboundCandidates st targetId = [s] →
      getShareIdForMessage st targetId = .ok s) ∧
    (2 ≤ (outboundCandidates st targetId).length →
      ∃ s, s ∈ outboundCandidates st targetId ∧
        getShareIdForMessage st targetId = .ok s ∧
        ∀ s2 ∈ outboundCandidates st targetId,
          sessionKeyOf st s targetId ≤ sessionKeyOf st s2 targetId) := by
  have hfil := filterSharesForPeer_ok st targetId (recKeys st.shares) hrec
  have hdo : getShareIdForMessage st targetId =
      match outboundCandidates st targetId with
      | [] => .error (.noShareForPeer targetId)
      | [s] => .ok s
      | l => .ok ((sortBySessionKey st targetId l).headD "") := by
    rw [getShareIdForMessage, hfil]
    rfl
  refine ⟨?_, ?_, ?_⟩
  · intro hnil
    rw [hdo, hnil]
  · intro s hone
    rw [hdo, hone]
  · intro hlen
    rcases hcand : outboundCandidates st targetId with _ | ⟨a, _ | ⟨b, rest⟩⟩
    · rw [hcand] at hlen
      exact absurd hlen (by simp)
    · rw [hcand] at hlen
      exact absurd hlen (by simp)
    · rcases hsort : sortBySessionKey st targetId (a :: b :: rest) with _ | ⟨m, r2⟩
      · exact absurd hsort (sortBySessionKey_ne_nil st targetId a (b :: rest))
      · refine ⟨m, ?_, ?_, ?_⟩
        · have hm : m ∈ sortBySessionKey st targetId (a :: b :: rest) := by
            rw [hsort]
            simp
          exact (mem_sortBySessionKey st targetId m (a :: b :: rest)).mp hm
        · rw [hdo, hcand]
          show Except.ok ((sortBySessionKey st targetId (a :: b :: rest)).headD "") =
            Except.ok m
          rw [hsort]
          rfl
        · intro s2 hs2
          exact sortBySessionKey_head_min st targetId (a :: b :: rest) m r2 hsort s2 hs2

/-- Witness for C5 at a concrete provider: `stSel` has two candidate
shares for peer `"p"`; the one with the lexicographically smaller
session key (`"s2"`, key `"ka"`) is selected. -/
theorem outbound_share_selection_rule_witness :
    ∃ s, s ∈ outboundCandidates stSel "p" ∧
      getShareIdForMessage stSel "p" = .ok s ∧
      ∀ s2 ∈ outboundCandidates stSel "p",
        sessionKeyOf stSel s "p" ≤ sessionKeyOf stSel s2 "p" :=
  (outbound_share_selection_rule stSel "p" (by decide)).2.2 (by decide)

end Provider

/-!
## Persistence format and secrecy (C7)
-/

namespace Provider

open LfAuth

theorem saveStateLoop_eq (device : DeviceWithSecrets) :
    ∀ (shares : Rec Share) (acc : Rec Value),
      (∀ k ∈ recKeys shares, recHas k acc = false) →
      (recKeys shares).Nodup →
      saveStateLoop device shares acc =
        acc ++ shares.map (fun e => (e.1, serializedShareValue device e.2)) := by
  intro shares
  induction shares with
  | nil =>
    intro acc hdis hnd
    simp [saveStateLoop]
  | cons e rest ih =>
    obtain ⟨sid, share⟩ := e
    intro acc hdis hnd
    simp only [recKeys, List.map_cons, List.nodup_cons] at hnd
    rw [saveStateLoop, recSet_eq_append sid _ acc (hdis sid (by simp [recKeys]))]
    rw [ih (acc ++ [(sid, serializedShareValue device share)]) ?_ ?_]
    · simp
    · intro k hk
      rw [recHas_append_single]
      have hne : ¬ sid = k := fun heq => hnd.1 (heq ▸ hk)
      have hacc : recHas k acc = false := hdis k (by simp [recKeys] at hk ⊢; exact Or.inr hk)
      simp [hacc, hne]
    · exact hnd.2

theorem plainStrings_vmap_cons (k : String) (v : Value) (rest : List (String × Value)) :
    plainStrings (Value.vmap ((k, v) :: rest)) =
      k :: (plainStrings v ++ plainStrings (Value.vmap rest)) := by
  simp [plainStrings]

theorem plainStrings_serializedShareValue (device : DeviceWithSecrets) (share : Share) :
    plainStrings (serializedShareValue device share) =
      ["encryptedTeam", "encryptedTeamKeys"] := by
  simp [serializedShareValue, Team.save, Team.teamKeyring, encrypt, plainStrings]

theorem secret_not_in_serialized (device : DeviceWithSecrets)
    (h2 : device.keys.secretKey ≠ "encryptedTeam")
    (h3 : device.keys.secretKey ≠ "encryptedTeamKeys") :
    ∀ (shares : Rec Share), device.keys.secretKey ∉ recKeys shares →
      device.keys.secretKey ∉
        plainStrings (.vmap (shares.map (fun e => (e.1, serializedShareValue device e.2)))) := by
  intro shares
  induction shares with
  | nil =>
    intro _
    simp [plainStrings]
  | cons e rest ih =>
    obtain ⟨sid, share⟩ := e
    intro h1
    simp only [recKeys, List.map_cons, List.mem_cons, not_or] at h1
    rw [List.map_cons, plainStrings_vmap_cons, plainStrings_serializedShareValue]
    simp only [List.cons_append, List.nil_append, List.mem_cons, not_or]
    exact ⟨h1.1, h2, h3, ih h1.2⟩

/-- C7: `#saveState` writes exactly one value: a CBOR blob under the
fixed key `["AuthProvider", "shares"]`, whose content maps each share id
to precisely the pair `{ encryptedTeam: team.save(), encryptedTeamKeys:
encrypt(team.teamKeyring(), device secret key) }`; and the device secret
key is not among the plaintext strings of the written blob — it occurs
only as the sealing key of a ciphertext — so this layer never writes it
to storage. -/
theorem save_state_format_and_secrecy (st : ProviderState)
    (hnd : (recKeys st.shares).Nodup)
    (hk1 : st.device.keys.secretKey ∉ recKeys st.shares)
    (hk2 : st.device.keys.secretKey ≠ "encryptedTeam")
    (hk3 : st.device.keys.secretKey ≠ "encryptedTeamKeys") :
    (saveState st).2 =
      [OutputEvent.storageSave ["AuthProvider", "shares"] (Blob.cbor (saveStateValue st))] ∧
    (saveState st).1.storedShares = some (Blob.cbor (saveStateValue st)) ∧
    saveStateValue st =
      Value.vmap (st.shares.map (fun e =>
        (e.1, Value.vmap [("encryptedTeam", Team.save e.2.team),
          ("encryptedTeamKeys", encrypt (Team.teamKeyring e.2.team) st.device.keys.secretKey)]))) ∧
    st.device.keys.secretKey ∉ blobPlainStrings (Blob.cbor (saveStateValue st)) := by
  have hloop : saveStateLoop st.device st.shares [] =
      st.shares.map (fun e => (e.1, serializedShareValue st.device e.2)) := by
    rw [saveStateLoop_eq st.device st.shares [] (fun k _ => rfl) hnd]
    rfl
  have h3 : saveStateValue st =
      Value.vmap (st.shares.map (fun e =>
        (e.1, Value.vmap [("encryptedTeam", Team.save e.2.team),
          ("encryptedTeamKeys", encrypt (Team.teamKeyring e.2.team) st.device.keys.secretKey)]))) := by
    show Value.vmap (saveStateLoop st.device st.shares []) = _
    rw [hloop]
    rfl
  have h4 : st.device.keys.secretKey ∉ blobPlainStrings (Blob.cbor (saveStateValue st)) := by
    show st.device.keys.secretKey ∉
      plainStrings (Value.vmap (saveStateLoop st.device st.shares []))
    rw [hloop]
    exact secret_not_in_serialized st.device hk2 hk3 st.shares hk1
  exact ⟨rfl, rfl, h3, h4⟩

/-- Witness for C7 at a concrete provider: saving `stPair` writes the
single CBOR blob under `["AuthProvider", "shares"]`. -/
theorem save_state_format_and_secrecy_witness :
    (saveState stPair).2 =
      [OutputEvent.storageSave ["AuthProvider", "shares"] (Blob.cbor (saveStateValue stPair))] :=
  (save_state_format_and_secrecy stPair (by decide) (by decide) (by decide) (by decide)).1

end Provider

namespace Provider

open LfAuth

/-- C5 counterexample: `addTeam(teamS)` on a fresh provider with no
known peers yields a reachable state in which share `"s"` is in
`#shares` but `#connections["s"]` is undefined. For any target the
candidate set (shares where the target has a session) is empty, yet
`#getShareIdForMessage` does not fail with the claimed "no share found
for peer" error: the filter's `targetId in this.#connections[shareId]`
(line 449) throws a TypeError first. -/
theorem outbound_selection_type_error_counterexample :
    outboundCandidates (step (initialProvider dev0) (ProviderInput.addTeam teamS)).1 "p" = [] ∧
    getShareIdForMessage (step (initialProvider dev0) (ProviderInput.addTeam teamS)).1 "p" =
      Except.error JSError.typeErr ∧
    Except.error JSError.typeErr ≠
      (Except.error (JSError.noShareForPeer "p") : Except JSError ShareId) :=
  ⟨rfl, rfl, fun h => by injection h with h2; cases h2⟩

end Provider
